import Mathlib

/-!
Verification of the information-retrieval search-engine core.

The Python sources are shallowly embedded: Python strings are modelled as
`List Char` (`PyStr`), Python sets of document IDs as `Finset ℕ`, Python
dictionaries as association lists, and Python exceptions as `Except`.
Floating-point similarity scores are modelled as exact rationals.
Each definition is translated from the named source function.
-/

/-- Python strings are modelled as lists of characters. -/
abbrev PyStr := List Char

/-- Coercion from Lean string literals to the `PyStr` model. -/
def str (s : String) : PyStr := s.data

/-- ASCII whitespace test, modelling the class of separators used by
Python `str.split()` on the index files (space, tab, newline, CR). -/
def isWs (c : Char) : Bool := c = ' ' ∨ c = '\t' ∨ c = '\n' ∨ c = '\r'

/-- Auxiliary accumulator for `pysplit`: `cur` is the word in progress. -/
def pysplitAux : PyStr → PyStr → List PyStr
  | cur, [] => if cur = [] then [] else [cur]
  | cur, c :: cs =>
    if isWs c then
      (if cur = [] then pysplitAux [] cs else cur :: pysplitAux [] cs)
    else pysplitAux (cur ++ [c]) cs

/-- Python `s.strip().split()`: split on whitespace runs, dropping empty
fields (stripping first makes no further difference). -/
def pysplit (s : PyStr) : List PyStr := pysplitAux [] s

/-- Auxiliary accumulator for `pysplitOn`. -/
def pysplitOnAux (sep : Char) : PyStr → PyStr → List PyStr
  | cur, [] => [cur]
  | cur, c :: cs =>
    if c = sep then cur :: pysplitOnAux sep [] cs
    else pysplitOnAux sep (cur ++ [c]) cs

/-- Python `s.split(sep)` for a one-character separator: keeps empty fields. -/
def pysplitOn (sep : Char) (s : PyStr) : List PyStr := pysplitOnAux sep [] s

/-- Python `s.rstrip(c)` for a one-character strip set. -/
def pyrstrip (c : Char) (s : PyStr) : PyStr :=
  (s.reverse.dropWhile (fun d => decide (d = c))).reverse

/-- ASCII lower-casing of one character, modelling Python `str.lower()`
on the ASCII text handled by the engines. -/
def lowerChar (c : Char) : Char :=
  if 'A' ≤ c ∧ c ≤ 'Z' then Char.ofNat (c.toNat + 32) else c

/-- ASCII upper-casing of one character, modelling Python `str.upper()`. -/
def upperChar (c : Char) : Char :=
  if 'a' ≤ c ∧ c ≤ 'z' then Char.ofNat (c.toNat - 32) else c

/-- Python `s.lower()`. -/
def pylower (s : PyStr) : PyStr := s.map lowerChar

/-- Python `s.upper()`. -/
def pyupper (s : PyStr) : PyStr := s.map upperChar

/-- Decimal digit characters. -/
def isDigitChar (c : Char) : Bool := 48 ≤ c.toNat ∧ c.toNat ≤ 57

/-- Python `s.isdigit()` (ASCII digits): nonempty and all digits. -/
def pyisdigit (s : PyStr) : Bool := (decide (s ≠ [])) && s.all isDigitChar

/-- The decimal digit character for a value below ten. -/
def digitChar (d : ℕ) : Char := Char.ofNat (48 + d)

/-- The value of a decimal digit character. -/
def digitVal (c : Char) : ℕ := c.toNat - 48

/-- Little-endian base-10 digits, fuel-structured so that the kernel can
evaluate it (`fuel ≥ n` suffices). -/
def digitsAux : ℕ → ℕ → List ℕ
  | _, 0 => []
  | 0, _ + 1 => []
  | f + 1, n + 1 => (n + 1) % 10 :: digitsAux f ((n + 1) / 10)

/-- Value of a little-endian digit list. -/
def ofDigits10 (l : List ℕ) : ℕ := l.foldr (fun d acc => d + 10 * acc) 0

/-- Python `str(n)` for a non-negative integer. -/
def natToChars (n : ℕ) : PyStr :=
  if n = 0 then [digitChar 0] else ((digitsAux n n).reverse.map digitChar)

/-- Python `int(s)` restricted by a preceding `s.isdigit()` check, as the
index loaders use it: succeeds exactly on nonempty all-digit strings. -/
def charsToNat (s : PyStr) : Option ℕ :=
  if pyisdigit s then some (ofDigits10 ((s.map digitVal).reverse)) else none

/-- Python `sep.join(parts)` for the comma-joined posting lists. -/
def pyjoin (sep : Char) : List PyStr → PyStr
  | [] => []
  | [p] => p
  | p :: q :: rest => p ++ sep :: pyjoin sep (q :: rest)

-- ---------------------------------------------------------------------
-- src/lists.py — posting-list intersection algorithms
-- ---------------------------------------------------------------------

/-- Source `src/lists.py`, `intersect_linear` (lines 73-90): the
two-pointer merge loop, fuel-structured (each iteration consumes at
least one element, so the combined length always suffices as fuel). -/
def intersect_linearAux : ℕ → List ℕ → List ℕ → List ℕ
  | 0, _, _ => []
  | _ + 1, [], _ => []
  | _ + 1, _, [] => []
  | f + 1, x :: xs, y :: ys =>
    if x = y then x :: intersect_linearAux f xs ys
    else if x < y then intersect_linearAux f xs (y :: ys)
    else intersect_linearAux f (x :: xs) ys

/-- Source `src/lists.py`, `intersect_linear`: two-pointer merge
intersection of two ascending lists. -/
def intersect_linear (list1 list2 : List ℕ) : List ℕ :=
  intersect_linearAux (list1.length + list2.length) list1 list2

/-- Source `src/lists.py`, `binary_search` (lines 93-106): the `while
low < high` loop, fuel-structured on `high - low` which the loop strictly
decreases; `fuel ≥ high - low` reproduces the Python loop exactly.
Out-of-range reads cannot occur for the in-bounds calls the algorithms
make; `getD` supplies a default for totality. -/
def binary_searchAux (arr : List ℕ) (target : ℕ) : ℕ → ℕ → ℕ → Option ℕ
  | 0, _, _ => none
  | f + 1, low, high =>
    if low < high then
      let mid := (low + high) / 2
      if arr.getD mid 0 = target then some mid
      else if arr.getD mid 0 < target then binary_searchAux arr target f (mid + 1) high
      else binary_searchAux arr target f low mid
    else none

/-- Source `src/lists.py`, `binary_search`: returns the index of `target`
in `arr[low:high]` or `none` (Python returns `-1`). -/
def binary_search (arr : List ℕ) (target : ℕ) (low high : ℕ) : Option ℕ :=
  binary_searchAux arr target (high + 1 - low) low high

/-- Source `src/lists.py`, `intersect_galloping` (lines 120-127): the
exponential-probe loop `while hi < len(list2) and list2[hi] < element`,
fuel-structured (the loop doubles `hi`, so `len list2` steps of fuel
always suffice); returns the final `(lo, hi)` pair before clamping. -/
def gallopAux (list2 : List ℕ) (element : ℕ) : ℕ → ℕ → ℕ → (ℕ × ℕ)
  | 0, lo, hi => (lo, hi)
  | f + 1, lo, hi =>
    if hi < list2.length ∧ list2.getD hi 0 < element then
      gallopAux list2 element f hi (hi * 2)
    else (lo, hi)

/-- Source `src/lists.py`, `intersect_galloping` (lines 109-131): for
each element of the shorter list, exponential probe then binary search
in the longer list. -/
def intersect_galloping (list1 list2 : List ℕ) : List ℕ :=
  let (list1, list2) :=
    if list1.length > list2.length then (list2, list1) else (list1, list2)
  list1.foldl
    (fun result element =>
      let lohi := gallopAux list2 element (list2.length + 1) 0 1
      let hi := min lohi.2 list2.length
      match binary_search list2 element lohi.1 hi with
      | some _ => result ++ [element]
      | none => result)
    []


-- ---------------------------------------------------------------------
-- Python dictionaries as association lists
-- ---------------------------------------------------------------------

/-- Python dictionary assignment `d[k] = v`: replaces the value of an
existing key in place, otherwise appends the new binding. -/
def pyDictInsert {α β : Type} [DecidableEq α] (l : List (α × β)) (k : α) (v : β) :
    List (α × β) :=
  if l.any (fun pr => decide (pr.1 = k)) then
    l.map (fun pr => if pr.1 = k then (k, v) else pr)
  else l ++ [(k, v)]

/-- Python `d.get(k, dflt)`. -/
def pyDictGet {α β : Type} [DecidableEq α] (l : List (α × β)) (k : α) (dflt : β) : β :=
  match l.find? (fun pr => decide (pr.1 = k)) with
  | some pr => pr.2
  | none => dflt

/-- A term index: Python dict from term to set of document IDs. -/
abbrev InvIndex := List (PyStr × Finset ℕ)

-- ---------------------------------------------------------------------
-- src/boolean.py (load_inverted_index is identical in src/lists.py)
-- ---------------------------------------------------------------------

/-- The loop body of `load_inverted_index` for one line: lines with
fewer than three whitespace-separated fields are skipped; the
document-frequency field is ignored; posting fields that fail `isdigit`
are dropped. -/
def loadIndexLine (inverted_index : InvIndex) (line : PyStr) : InvIndex :=
  let parts := pysplit line
  if parts.length < 3 then inverted_index
  else
    let term := parts.getD 0 []
    let posting_str := parts.getD 2 []
    let doc_ids := pysplitOn ',' posting_str
    pyDictInsert inverted_index term ((doc_ids.filterMap charsToNat).toFinset)

/-- Source `src/boolean.py` lines 10-27 and `src/lists.py` lines 11-32
(the two copies are identical), `load_inverted_index` over the list of
lines of the file. -/
def load_inverted_index (lines : List PyStr) : InvIndex :=
  lines.foldl loadIndexLine []

/-- Source `src/boolean.py` lines 30-37, `build_all_docs`: the universal
document set is the union of all posting sets of the index. -/
def build_all_docs (inverted_index : InvIndex) : Finset ℕ :=
  inverted_index.foldl (fun all_docs pr => all_docs ∪ pr.2) ∅

/-- The reserved token `AND`. -/
def tokAND : PyStr := str ("AND")

/-- The reserved token `OR`. -/
def tokOR : PyStr := str ("OR")

/-- The reserved token `NOT`. -/
def tokNOT : PyStr := str ("NOT")

/-- The opening-parenthesis token. -/
def tokLP : PyStr := str ("(")

/-- The closing-parenthesis token. -/
def tokRP : PyStr := str (")")

/-- Source `src/boolean.py` lines 50-57: standardization of one raw
token — operators to uppercase, parentheses kept, terms lowercased. -/
def tokenizeWord (token : PyStr) : PyStr :=
  if pyupper token = tokAND ∨ pyupper token = tokOR ∨ pyupper token = tokNOT then
    pyupper token
  else if token = tokLP ∨ token = tokRP then token
  else pylower token

/-- Source `src/boolean.py` lines 43-58, `tokenize`, for a query given
as its list of raw tokens: the regex findall step splits a query whose
tokens are whitespace-separated into exactly these words, and each word
is then standardized. -/
def tokenize (words : List PyStr) : List PyStr := words.map tokenizeWord

/-- Source `src/boolean.py` lines 83-86, `current_token`. -/
def current_token (tokens : List PyStr) (index : ℕ) : Option PyStr :=
  tokens.get? index

/-- The diagnostic text raised by `eat` (`src/boolean.py` line 92):
Python renders a missing token (`None`) as the text `None`. -/
def expectedMsg (expected : PyStr) (actual : Option PyStr) : PyStr :=
  str ("Expected token '") ++ expected ++ str ("', got '") ++
    (match actual with
     | none => str ("None")
     | some a => a) ++ str ("'")

/-- Source `src/boolean.py` lines 88-92, `eat`: advance past the
expected token or raise the diagnostic. -/
def eat (tokens : List PyStr) (index : ℕ) (tok : PyStr) : Except PyStr ℕ :=
  if current_token tokens index = some tok then Except.ok (index + 1)
  else Except.error (expectedMsg tok (current_token tokens index))

/-- The mutually recursive parser methods of `BooleanQueryParser`,
flattened into one fuel-indexed function so that recursion is structural:
each constructor tags which method (or loop continuation) runs next. -/
inductive PMode : Type
  | por : PMode
  | porLoop : Finset ℕ → PMode
  | pand : PMode
  | pandLoop : Finset ℕ → PMode
  | pnot : PMode
  | pprimary : PMode

/-- Source `src/boolean.py` lines 94-131: the recursive-descent parser
and evaluator.  `por`/`porLoop` model `parse_or` (lines 97-103),
`pand`/`pandLoop` model `parse_and` (lines 105-111), `pnot` models
`parse_not` (lines 113-119) and `pprimary` models `parse_primary`
(lines 121-131; a term absent from the index — including the `None`
past-the-end token — resolves to the empty set).  The fuel only runs
out beyond the recursion depth the Python parser can reach on the
given token list. -/
def parseRun (I : InvIndex) (U : Finset ℕ) (tokens : List PyStr) :
    ℕ → PMode → ℕ → Except PyStr (Finset ℕ × ℕ)
  | 0, _, _ => Except.error (str ("out of fuel"))
  | f + 1, PMode.por, index =>
    match parseRun I U tokens f PMode.pand index with
    | Except.error e => Except.error e
    | Except.ok ri => parseRun I U tokens f (PMode.porLoop ri.1) ri.2
  | f + 1, PMode.porLoop result, index =>
    if current_token tokens index = some tokOR then
      match eat tokens index tokOR with
      | Except.error e => Except.error e
      | Except.ok index2 =>
        match parseRun I U tokens f PMode.pand index2 with
        | Except.error e => Except.error e
        | Except.ok ri => parseRun I U tokens f (PMode.porLoop (result ∪ ri.1)) ri.2
    else Except.ok (result, index)
  | f + 1, PMode.pand, index =>
    match parseRun I U tokens f PMode.pnot index with
    | Except.error e => Except.error e
    | Except.ok ri => parseRun I U tokens f (PMode.pandLoop ri.1) ri.2
  | f + 1, PMode.pandLoop result, index =>
    if current_token tokens index = some tokAND then
      match eat tokens index tokAND with
      | Except.error e => Except.error e
      | Except.ok index2 =>
        match parseRun I U tokens f PMode.pnot index2 with
        | Except.error e => Except.error e
        | Except.ok ri => parseRun I U tokens f (PMode.pandLoop (result ∩ ri.1)) ri.2
    else Except.ok (result, index)
  | f + 1, PMode.pnot, index =>
    if current_token tokens index = some tokNOT then
      match eat tokens index tokNOT with
      | Except.error e => Except.error e
      | Except.ok index2 =>
        match parseRun I U tokens f PMode.pnot index2 with
        | Except.error e => Except.error e
        | Except.ok ri => Except.ok (U \ ri.1, ri.2)
    else parseRun I U tokens f PMode.pprimary index
  | f + 1, PMode.pprimary, index =>
    match current_token tokens index with
    | none => Except.ok (∅, index + 1)
    | some token =>
      if token = tokLP then
        match eat tokens index tokLP with
        | Except.error e => Except.error e
        | Except.ok index2 =>
          match parseRun I U tokens f PMode.por index2 with
          | Except.error e => Except.error e
          | Except.ok ri =>
            match eat tokens ri.2 tokRP with
            | Except.error e => Except.error e
            | Except.ok index3 => Except.ok (ri.1, index3)
      else Except.ok (pyDictGet I token ∅, index + 1)

/-- Source `src/boolean.py` lines 94-95, `parse_query`: run the parser
from the first token; the final index is dropped and tokens left over

after the parsed prefix are never examined. -/
def parse_query (I : InvIndex) (U : Finset ℕ) (tokens : List PyStr) :
    Except PyStr (Finset ℕ) :=
  (parseRun I U tokens (4 * tokens.length + 8) PMode.por 0).map (fun ri => ri.1)

/-- Source `src/boolean.py` lines 134-142, `process_boolean_query`, for
a query given as its list of raw words: tokenize then parse-evaluate. -/
def process_boolean_query (query_words : List PyStr) (I : InvIndex) (U : Finset ℕ) :
    Except PyStr (Finset ℕ) :=
  parse_query I U (tokenize query_words)

instance {ε α : Type} [DecidableEq ε] [DecidableEq α] : DecidableEq (Except ε α)
  | Except.error e, Except.error f =>
    if h : e = f then isTrue (h ▸ rfl) else isFalse (fun hh => h (Except.error.inj hh))
  | Except.error _, Except.ok _ => isFalse (fun hh => Except.noConfusion hh)
  | Except.ok _, Except.error _ => isFalse (fun hh => Except.noConfusion hh)
  | Except.ok a, Except.ok b =>
    if h : a = b then isTrue (h ▸ rfl) else isFalse (fun hh => h (Except.ok.inj hh))

/-- A standardized token that the parser treats as a plain term: not an
operator in any casing, not a parenthesis, and already lowercase (so
tokenization leaves it unchanged). -/
def isTermToken (t : PyStr) : Prop :=
  pyupper t ≠ tokAND ∧ pyupper t ≠ tokOR ∧ pyupper t ≠ tokNOT ∧
    t ≠ tokLP ∧ t ≠ tokRP ∧ pylower t = t

instance (t : PyStr) : Decidable (isTermToken t) := by
  unfold isTermToken
  infer_instance

-- ---------------------------------------------------------------------
-- src/inverted_index.py — serialization
-- ---------------------------------------------------------------------

/-- Lexicographic comparison of Python strings, as tuple/string `sorted`
uses it. -/
def pystrLe : PyStr → PyStr → Bool
  | [], _ => true
  | _ :: _, [] => false
  | a :: as, b :: bs => if a < b then true else if a = b then pystrLe as bs else false

/-- Python `sorted(postings)` for a set of document IDs. -/
def sortedPostings (postings : Finset ℕ) : List ℕ := Finset.sort (· ≤ ·) postings

/-- One output line of `save_inverted_index` (`src/inverted_index.py`
lines 108-111): `term<sp>df<sp>docId,docId,...` with ascending doc IDs. -/
def saveLine (pr : PyStr × Finset ℕ) : PyStr :=
  pr.1 ++ [' '] ++ natToChars pr.2.card ++ [' '] ++
    pyjoin ',' ((sortedPostings pr.2).map natToChars)

/-- Source `src/inverted_index.py` lines 102-111, `save_inverted_index`:
entries sorted by term (dictionary keys are unique, so the tuple sort
never compares the posting sets), one line per term. -/
def save_inverted_index (inverted_index : InvIndex) : List PyStr :=
  (List.insertionSort (fun a b => pystrLe a.1 b.1 = true) inverted_index).map saveLine

-- ---------------------------------------------------------------------
-- src/phrase_query.py — biword phrase resolution
-- ---------------------------------------------------------------------

/-- The shared query-splitting front end as the biword engine applies it
(`src/phrase_query.py` lines 30-31): lowercase, split on whitespace,
stem every word.  The Porter stemmer is an external collaborator and is
a parameter `stem`. -/
def biwordPhraseWords (stem : PyStr → PyStr) (phrase : PyStr) : List PyStr :=
  (pysplit (pylower phrase)).map stem

/-- The query-splitting front end as the positional engine applies it
(`src/positional_phrase_query.py` line 25): lowercase and split on
whitespace only. -/
def posPhraseWords (phrase : PyStr) : List PyStr :=
  pysplit (pylower phrase)

/-- Source `src/phrase_query.py` lines 28-32, `phrase_to_biwords`:
adjacent stemmed words joined by an underscore. -/
def phrase_to_biwords (stem : PyStr → PyStr) (phrase : PyStr) : List PyStr :=
  let stemmed_words := biwordPhraseWords stem phrase
  (List.range (stemmed_words.length - 1)).map
    (fun i => stemmed_words.getD i [] ++ ['_'] ++ stemmed_words.getD (i + 1) [])

/-- Source `src/phrase_query.py` lines 35-47, `retrieve_documents`:
intersect the posting sets of all biwords of the phrase; an empty biword
list short-circuits to the empty set. -/
def retrieve_documents (stem : PyStr → PyStr) (phrase : PyStr)
    (biword_index : InvIndex) : Finset ℕ :=
  let biwords := phrase_to_biwords stem phrase
  if biwords = [] then ∅
  else
    match biwords.map (fun b => pyDictGet biword_index b ∅) with
    | [] => ∅
    | d :: ds => ds.foldl (fun acc s => acc ∩ s) d

-- ---------------------------------------------------------------------
-- src/positional_phrase_query.py — exact positional phrase resolution
-- ---------------------------------------------------------------------

/-- The Python exceptions the loaders can raise. -/
inductive PyErr : Type
  | valueError : PyErr
  | indexError : PyErr
deriving DecidableEq

/-- A positional index: term → (document ID → ascending position list). -/
abbrev PosIndex := List (PyStr × List (ℕ × List ℕ))

/-- `positional_index[term][doc_id] = positions` on the doubly-nested
defaultdict. -/
def posAssign (positional_index : PosIndex) (term : PyStr) (doc_id : ℕ)
    (positions : List ℕ) : PosIndex :=
  pyDictInsert positional_index term
    (pyDictInsert (pyDictGet positional_index term []) doc_id positions)

/-- Source `src/positional_phrase_query.py` lines 6-21,
`load_positional_index`: each line unpacks as `term, *postings`, which
raises `ValueError` on an empty split; each posting strips trailing
semicolons, then must unpack as exactly `doc_id:positions` (else
`ValueError`); `int` conversion of a non-numeric field also raises. -/
def load_positional_index (lines : List PyStr) : Except PyErr PosIndex :=
  lines.foldlM
    (fun positional_index line =>
      match pysplit line with
      | [] => Except.error PyErr.valueError
      | term :: postings =>
        postings.foldlM
          (fun idx posting =>
            match pysplitOn ':' (pyrstrip ';' posting) with
            | [doc_id_str, positions_str] =>
              match charsToNat doc_id_str with
              | none => Except.error PyErr.valueError
              | some doc_id =>
                match (pysplitOn ',' positions_str).mapM charsToNat with
                | none => Except.error PyErr.valueError
                | some positions => Except.ok (posAssign idx term doc_id positions)
            | _ => Except.error PyErr.valueError)
          positional_index)
    []

/-- `positional_index.get(word, {})`. -/
def pposGet (positional_index : PosIndex) (word : PyStr) : List (ℕ × List ℕ) :=
  pyDictGet positional_index word []

/-- The set of document IDs of one word's postings,
`set(positional_index.get(word, {}).keys())`. -/
def docSetOf (positional_index : PosIndex) (word : PyStr) : Finset ℕ :=
  ((pposGet positional_index word).map Prod.fst).toFinset

/-- `positional_index[word][doc_id]` (defaultdict: missing entries give
the empty list). -/
def posOf (positional_index : PosIndex) (word : PyStr) (doc_id : ℕ) : List ℕ :=
  pyDictGet (pposGet positional_index word) doc_id []

/-- Source `src/positional_phrase_query.py` lines 24-45, `phrase_query`:
intersect the per-word document sets, then keep a candidate document as
soon as one starting offset `pos` of the first word has every later word
`i` at `pos + i`. -/
def phrase_query (phrase : PyStr) (positional_index : PosIndex) : Finset ℕ :=
  match posPhraseWords phrase with
  | [] => ∅
  | first_word :: rest =>
    let result_docs :=
      rest.foldl (fun acc w => acc ∩ docSetOf positional_index w)
        (docSetOf positional_index first_word)
    result_docs.filter
      (fun doc_id =>
        (posOf positional_index first_word doc_id).any
          (fun pos =>
            (List.range rest.length).all
              (fun j =>
                decide ((pos + (j + 1)) ∈ posOf positional_index (rest.getD j []) doc_id))) = true)

-- ---------------------------------------------------------------------
-- src/ngram_jaccard_correction.py — approximate correction engine
-- ---------------------------------------------------------------------

/-- A vocabulary: Python dict from term to document frequency. -/
abbrev Vocab := List (PyStr × ℕ)

/-- Source `src/ngram_jaccard_correction.py` lines 8-16,
`load_vocabulary_with_frequency`: `parts[0]` and `parts[1]` raise
`IndexError` when absent; `int(parts[1])` raises `ValueError` on a
non-numeric field.  There is no malformed-line guard. -/
def load_vocabulary_with_frequency (lines : List PyStr) : Except PyErr Vocab :=
  lines.foldlM
    (fun vocabulary line =>
      match pysplit line with
      | [] => Except.error PyErr.indexError
      | [_] => Except.error PyErr.indexError
      | term :: df_str :: _ =>
        match charsToNat df_str with
        | none => Except.error PyErr.valueError
        | some df => Except.ok (pyDictInsert vocabulary term df))
    []

/-- Source `src/ngram_jaccard_correction.py` lines 30-31, `get_ngrams`:
the set of all length-`n` slices. -/
def get_ngrams (word : PyStr) (n : ℕ) : Finset PyStr :=
  ((List.range (word.length + 1 - n)).map (fun i => (word.drop i).take n)).toFinset

/-- Source lines 34-35, `combined_ngrams`: bigrams united with trigrams. -/
def combined_ngrams (word : PyStr) : Finset PyStr :=
  get_ngrams word 2 ∪ get_ngrams word 3

/-- Source lines 38-41, `jaccard_similarity`; the Python float ratio is
modelled as an exact rational. -/
def jaccard_similarity (set1 set2 : Finset PyStr) : ℚ :=
  if (set1 ∪ set2).card = 0 then 0
  else ((set1 ∩ set2).card : ℚ) / ((set1 ∪ set2).card : ℚ)

/-- Sort key of line 53, `key=lambda x: (-x[1], -x[2])`: similarity
descending, then document frequency descending. -/
def jacKeyLe (a b : PyStr × ℚ × ℕ) : Prop :=
  b.2.1 < a.2.1 ∨ (a.2.1 = b.2.1 ∧ b.2.2 ≤ a.2.2)

instance : DecidableRel jacKeyLe := fun a b => by
  unfold jacKeyLe; infer_instance

/-- Source lines 44-54, `find_jaccard_candidates` with its default
configuration (`top_n=7`, `min_similarity=0.3`, `min_df=20`), as
`get_best_candidates` invokes it. -/
def find_jaccard_candidates (word : PyStr) (vocabulary : Vocab) : List PyStr :=
  let top_n := 7
  let min_similarity : ℚ := 3 / 10
  let min_df := 20
  let word_ngrams := combined_ngrams word
  let candidates := vocabulary.filterMap
    (fun pr =>
      if pr.2 ≥ min_df then
        let similarity := jaccard_similarity word_ngrams (combined_ngrams pr.1)
        if similarity ≥ min_similarity then some (pr.1, similarity, pr.2) else none
      else none)
  ((List.insertionSort jacKeyLe candidates).take top_n).map (fun pr => pr.1)

/-- The Levenshtein recurrence, fuel-structured (the summed length of
the two words always suffices as fuel); models the external
`Levenshtein.distance` collaborator. -/
def levAux : ℕ → PyStr → PyStr → ℕ
  | 0, _, _ => 0
  | _ + 1, [], ys => ys.length
  | _ + 1, x :: xs, [] => (x :: xs).length
  | f + 1, x :: xs, y :: ys =>
    if x = y then levAux f xs ys
    else 1 + min (levAux f xs (y :: ys)) (min (levAux f (x :: xs) ys) (levAux f xs ys))

/-- `Levenshtein.distance`: minimum insert/delete/substitute count. -/
def levenshtein_distance (a b : PyStr) : ℕ := levAux (a.length + b.length + 1) a b

/-- Source lines 57-62, `find_edit_distance_candidates` with its default
configuration (`max_distance=2`, `top_n=5`). -/
def find_edit_distance_candidates (word : PyStr) (vocabulary : Vocab) : List PyStr :=
  let max_distance := 2
  let top_n := 5
  let candidates := vocabulary.filterMap
    (fun pr =>
      if levenshtein_distance word pr.1 ≤ max_distance then
        some (pr.1, levenshtein_distance word pr.1)
      else none)
  ((List.insertionSort (fun a b : PyStr × ℕ => a.2 ≤ b.2) candidates).take top_n).map
    (fun pr => pr.1)

/-- Source lines 65-69, `get_best_candidates`: n-gram Jaccard selection,
else bounded edit distance, else the original word itself. -/
def get_best_candidates (word : PyStr) (vocabulary : Vocab) : List PyStr :=
  let candidates := find_jaccard_candidates word vocabulary
  let candidates2 :=
    if candidates = [] then find_edit_distance_candidates word vocabulary else candidates
  if candidates2 = [] then [word] else candidates2

-- ---------------------------------------------------------------------
-- src/biword_index.py and src/positional_index.py — index reduction
-- ---------------------------------------------------------------------

/-- A biword as the Python tuple key `(t1, t2)` of the in-memory index. -/
abbrev Biword := PyStr × PyStr

/-- Source `src/biword_index.py` lines 65-69: the reduction loop merging
per-document biword lists into the shared `defaultdict(set)` index,
modelled as a function from biword to its posting set. -/
def biword_reduce (results : List (ℕ × List Biword)) : Biword → Finset ℕ :=
  results.foldl
    (fun biword_index r =>
      r.2.foldl
        (fun idx biword => fun b => if b = biword then insert r.1 (idx b) else idx b)
        biword_index)
    (fun _ => ∅)

/-- Source `src/positional_index.py` lines 51-55: the reduction loop
merging per-document position dictionaries into the shared nested
defaultdict by `extend`, modelled as a function from term and document
ID to the accumulated position list. -/
def positional_reduce (results : List (ℕ × List (PyStr × List ℕ))) :
    PyStr → ℕ → List ℕ :=
  results.foldl
    (fun positional_index r =>
      r.2.foldl
        (fun idx tp => fun t d =>
          if t = tp.1 ∧ d = r.1 then idx t d ++ tp.2 else idx t d)
        positional_index)
    (fun _ _ => [])

/-- A stand-in for the external Porter stemmer (a collaborator supplied
to the engines), exhibiting the ordinary stemmer behaviour of mapping
an inflected word to its stem. -/
def demoStem : PyStr → PyStr :=
  fun w => if w = str ("running") then str ("run") else w

-- ---------------------------------------------------------------------
-- Helper lemmas
-- ---------------------------------------------------------------------

/-- A list map fixes the list exactly when it fixes every element. -/
theorem list_map_eq_self {α : Type} (f : α → α) :
    ∀ l : List α, l.map f = l ↔ ∀ x ∈ l, f x = x := by
  intro l
  induction l with
  | nil => simp
  | cons a l ih => simp [ih]

-- ---------------------------------------------------------------------
-- Claim C1
-- ---------------------------------------------------------------------

/-- Claim C1: the spec states that for every pair of ascending integer
sequences, `intersect_linear` and `intersect_galloping` produce
identical sorted results.  The code violates this: on the ascending
inputs `[5]` and `[1, 5]` the linear intersection returns `[5]` while
the galloping intersection returns `[]`, because `binary_search`
searches the half-open range `[lo, hi)` and the probe loop stops with
`hi` pointing exactly at the sought element.  This theorem evaluates
both algorithms at the failing input. -/
theorem C1_intersection_equivalence_fails_on_code :
    List.Sorted (· < ·) [5] ∧ List.Sorted (· < ·) [1, 5] ∧
      intersect_linear [5] [1, 5] = [5] ∧ intersect_galloping [5] [1, 5] = [] := by
  decide

-- ---------------------------------------------------------------------
-- Claim C5
-- ---------------------------------------------------------------------

/-- Claim C5 counterexample: the claim states that the positional engine
stems query words exactly as the biword engine does.  It does not: for
the phrase `running fast` the positional front end produces the raw
lowercased words while the biword front end produces the stemmed ones,
so the two front ends differ. -/
theorem C5_positional_front_end_does_not_stem :
    posPhraseWords (str ("running fast")) ≠
      biwordPhraseWords demoStem (str ("running fast")) := by
  decide

/-- Claim C5 amended: both resolution strategies lowercase the query and
split it on whitespace, and the biword engine additionally stems each
word; the positional engine performs no stemming, so the two front ends
agree exactly when the stemmer fixes every split word. -/
theorem C5_front_ends_agree_iff_stem_fixes_words (stem : PyStr → PyStr)
    (phrase : PyStr) :
    biwordPhraseWords stem phrase = (posPhraseWords phrase).map stem ∧
      (posPhraseWords phrase = biwordPhraseWords stem phrase ↔
        ∀ w ∈ posPhraseWords phrase, stem w = w) := by
  refine ⟨rfl, ?_⟩
  rw [eq_comm]
  exact list_map_eq_self stem (posPhraseWords phrase)

-- ---------------------------------------------------------------------
-- Claim C9
-- ---------------------------------------------------------------------

/-- Claim C9: the per-word candidate list of the correction engine is
never empty — if n-gram Jaccard selection yields no candidates the
bounded-edit-distance candidates are used, and if those are empty too
the original word itself is the sole candidate. -/
theorem C9_candidate_list_never_empty (word : PyStr) (vocabulary : Vocab) :
    get_best_candidates word vocabulary ≠ [] ∧
      (find_jaccard_candidates word vocabulary = [] →
        get_best_candidates word vocabulary =
          (if find_edit_distance_candidates word vocabulary = [] then [word]
           else find_edit_distance_candidates word vocabulary)) := by
  unfold get_best_candidates
  by_cases h1 : find_jaccard_candidates word vocabulary = []
  · by_cases h2 : find_edit_distance_candidates word vocabulary = []
    · simp [h1, h2]
    · simp [h1, h2]
  · simp [h1]

/-- Claim C9 witness: on a vocabulary where both candidate generators
come up empty, the original word is the sole candidate. -/
theorem C9_candidate_list_never_empty_witness :
    find_jaccard_candidates (str ("xyz")) [] = [] ∧
      get_best_candidates (str ("xyz")) [] ≠ [] ∧
      get_best_candidates (str ("xyz")) [] = [str ("xyz")] := by
  refine ⟨by decide, (C9_candidate_list_never_empty (str ("xyz")) []).1, ?_⟩
  have h := (C9_candidate_list_never_empty (str ("xyz")) []).2 (by decide)
  simpa using h

-- ---------------------------------------------------------------------
-- Claim C10
-- ---------------------------------------------------------------------

/-- Claim C10: a phrase whose whitespace split yields fewer than two
words produces no biwords, so biword-based phrase retrieval returns the
empty set — in particular a single-word phrase never resolves to that
word's own posting set. -/
theorem C10_short_phrase_retrieves_empty (stem : PyStr → PyStr) (phrase : PyStr)
    (biword_index : InvIndex) (h : (pysplit (pylower phrase)).length ≤ 1) :
    retrieve_documents stem phrase biword_index = ∅ := by
  have hb : phrase_to_biwords stem phrase = [] := by
    unfold phrase_to_biwords biwordPhraseWords
    have hl : (pysplit (pylower phrase)).length - 1 = 0 := by omega
    simp [hl]
  unfold retrieve_documents
  simp [hb]

/-- Claim C10 witness: the single-word phrase `real` retrieves nothing
from a biword index even though the index holds a posting set under the
key `real`. -/
theorem C10_short_phrase_retrieves_empty_witness :
    (pysplit (pylower (str ("real")))).length ≤ 1 ∧
      retrieve_documents (fun w => w) (str ("real")) [(str ("real"), {0, 1})] = ∅ :=
  ⟨by decide,
    C10_short_phrase_retrieves_empty (fun w => w) (str ("real"))
      [(str ("real"), {0, 1})] (by decide)⟩

-- ---------------------------------------------------------------------
-- Claim C4
-- ---------------------------------------------------------------------

/-- Claim C4 counterexample: the claim states that all three index
loaders skip malformed lines (including empty lines) silently and never
raise.  Only the term-index loader does: on a single empty line the
vocabulary loader raises `IndexError` (`parts[0]` of an empty split)
and the positional-index loader raises `ValueError` (unpacking
`term, *postings` from an empty split), while the term-index loader
indeed skips it. -/
theorem C4_not_all_loaders_tolerant :
    load_inverted_index [[]] = [] ∧
      load_vocabulary_with_frequency [[]] = Except.error PyErr.indexError ∧
      load_positional_index [[]] = Except.error PyErr.valueError := by
  decide

/-- Claim C4 amended: the term-index loader skips every line with fewer
than three whitespace-separated fields silently and continues (and, by
type, never raises); the vocabulary loader and the positional-index
loader instead raise on a line whose split is empty — an `IndexError`
and a `ValueError` respectively — aborting the load at that line. -/
theorem C4_only_term_loader_tolerant :
    (∀ (pre post : List PyStr) (line : PyStr),
        (pysplit line).length < 3 →
        load_inverted_index (pre ++ line :: post) = load_inverted_index (pre ++ post)) ∧
      (∀ (rest : List PyStr) (line : PyStr), pysplit line = [] →
        load_vocabulary_with_frequency (line :: rest) = Except.error PyErr.indexError ∧
          load_positional_index (line :: rest) = Except.error PyErr.valueError) := by
  constructor
  · intro pre post line h
    unfold load_inverted_index
    rw [List.foldl_append, List.foldl_append, List.foldl_cons]
    congr 1
    simp [loadIndexLine, h]
  · intro rest line h
    constructor
    · unfold load_vocabulary_with_frequency
      rw [List.foldlM_cons]
      simp only [h]
      rfl
    · unfold load_positional_index
      rw [List.foldlM_cons]
      simp only [h]
      rfl

/-- Claim C4 amended witness: a one-field line is skipped by the
term-index loader, while an empty line makes the other two loaders
raise. -/
theorem C4_only_term_loader_tolerant_witness :
    ((pysplit (str ("bad"))).length < 3 ∧
        load_inverted_index ([] ++ str ("bad") :: []) = load_inverted_index ([] ++ [])) ∧
      (pysplit ([] : PyStr) = [] ∧
        load_vocabulary_with_frequency [[]] = Except.error PyErr.indexError ∧
          load_positional_index [[]] = Except.error PyErr.valueError) :=
  ⟨⟨by decide, C4_only_term_loader_tolerant.1 [] [] (str ("bad")) (by decide)⟩,
    ⟨rfl, C4_only_term_loader_tolerant.2 [] [] rfl⟩⟩

-- ---------------------------------------------------------------------
-- Claims C2 and C3 — the Boolean query engine
-- ---------------------------------------------------------------------

/-- Membership in the running union that `build_all_docs` folds. -/
theorem build_all_docs_foldl (I : InvIndex) (s : Finset ℕ) (d : ℕ) :
    (d ∈ I.foldl (fun all_docs pr => all_docs ∪ pr.2) s) ↔
      d ∈ s ∨ ∃ pr ∈ I, d ∈ pr.2 := by
  induction I generalizing s with
  | nil => simp
  | cons a l ih => simp [List.foldl_cons, ih, Finset.mem_union]; tauto

/-- The universal document set is exactly the union of all posting sets. -/
theorem mem_build_all_docs (I : InvIndex) (d : ℕ) :
    d ∈ build_all_docs I ↔ ∃ pr ∈ I, d ∈ pr.2 := by
  unfold build_all_docs
  rw [build_all_docs_foldl]
  simp

/-- Every posting set the index resolves is inside the universal set. -/
theorem pyDictGet_subset_build_all_docs (I : InvIndex) (t : PyStr) :
    pyDictGet I t ∅ ⊆ build_all_docs I := by
  unfold pyDictGet
  cases hf : I.find? (fun pr => decide (pr.1 = t)) with
  | none => simp
  | some pr =>
    intro d hd
    rw [mem_build_all_docs]
    exact ⟨pr, List.mem_of_find?_eq_some hf, hd⟩

/-- A term token differs from every reserved token and is fixed by
tokenization. -/
theorem isTermToken_ne (t : PyStr) (ht : isTermToken t) :
    t ≠ tokAND ∧ t ≠ tokOR ∧ t ≠ tokNOT ∧ t ≠ tokLP ∧ t ≠ tokRP ∧
      tokenizeWord t = t := by
  obtain ⟨h1, h2, h3, h4, h5, h6⟩ := ht
  refine ⟨?_, ?_, ?_, h4, h5, ?_⟩
  · intro he
    exact absurd (he ▸ h6) (by decide)
  · intro he
    exact absurd (he ▸ h6) (by decide)
  · intro he
    exact absurd (he ▸ h6) (by decide)
  · simp [tokenizeWord, h1, h2, h3, h4, h5, h6]

/-- Claim C2: for every term and every loaded term index, `NOT t`
evaluates to the universal set minus the term's postings, where the
universal set is `build_all_docs`, exactly the union of all term-index
posting sets (third conjunct); and `NOT NOT t` evaluates back to the
term's postings whenever the term occurs in at least one document. -/
theorem C2_not_is_universe_difference (I : InvIndex) (t : PyStr)
    (ht : isTermToken t) :
    process_boolean_query [str ("NOT"), t] I (build_all_docs I) =
        Except.ok (build_all_docs I \ pyDictGet I t ∅) ∧
      ((pyDictGet I t ∅).Nonempty →
        process_boolean_query [str ("NOT"), str ("NOT"), t] I (build_all_docs I) =
          Except.ok (pyDictGet I t ∅)) ∧
      (∀ d, d ∈ build_all_docs I ↔ ∃ pr ∈ I, d ∈ pr.2) := by
  obtain ⟨hA, hO, hN, hL, hR, htw⟩ := isTermToken_ne t ht
  have hnotTok : tokenizeWord (str ("NOT")) = tokNOT := by decide
  refine ⟨?_, ?_, fun d => mem_build_all_docs I d⟩
  · simp [process_boolean_query, parse_query, tokenize, hnotTok, htw, parseRun,
      current_token, eat, hN, hL, Except.map]
  · intro _
    have hsub := pyDictGet_subset_build_all_docs I t
    have hdd : build_all_docs I \ (build_all_docs I \ pyDictGet I t ∅) =
        pyDictGet I t ∅ := by
      rw [sdiff_sdiff_right_self]
      exact inf_eq_right.mpr hsub
    simp [process_boolean_query, parse_query, tokenize, hnotTok, htw, parseRun,
      current_token, eat, hN, hL, hdd, Except.map]

/-- Claim C2 witness: concrete index with one term `a` in document 0. -/
theorem C2_not_is_universe_difference_witness :
    isTermToken (str ("a")) ∧
      (pyDictGet ([(str ("a"), {0})] : InvIndex) (str ("a")) ∅).Nonempty ∧
      process_boolean_query [str ("NOT"), str ("NOT"), str ("a")]
          ([(str ("a"), {0})] : InvIndex)
          (build_all_docs ([(str ("a"), {0})] : InvIndex)) =
        Except.ok (pyDictGet ([(str ("a"), {0})] : InvIndex) (str ("a")) ∅) :=
  ⟨by decide, by decide,
    (C2_not_is_universe_difference ([(str ("a"), {0})] : InvIndex) (str ("a"))
        (by decide)).2.1 (by decide)⟩

/-- Claim C3 counterexample: the claim states that every syntax error —
in particular a missing operand such as a trailing `AND` — fails the
parse with a diagnostic and does not return a posting set.  The query
`real AND` has a missing operand, yet the parser consumes the missing
operand as an absent term, evaluates it to the empty set and returns
the intersection — a posting set, not an error. -/
theorem C3_missing_operand_does_not_fail :
    process_boolean_query [str ("real"), str ("AND")] [(str ("real"), {0})] {0} =
        Except.ok ∅ ∧
      ∀ e, process_boolean_query [str ("real"), str ("AND")] [(str ("real"), {0})] {0} ≠
        Except.error e := by
  refine ⟨by decide, ?_⟩
  intro e h
  rw [show process_boolean_query [str ("real"), str ("AND")] [(str ("real"), {0})] {0} =
      Except.ok ∅ by decide] at h
  exact Except.noConfusion h

/-- Claim C3 amended: only a mismatch inside `eat` fails the parse — an
unmatched opening parenthesis raises the diagnostic naming the expected
and the actual token; a missing operand is instead consumed as an
absent term that evaluates to the empty set, and tokens left over after
the parsed prefix are ignored.  This theorem proves the surviving part:
for every index, universe and term token, the query `( t` fails with
the diagnostic expecting `)` and finding `None`. -/
theorem C3_unmatched_paren_raises_diagnostic (I : InvIndex) (U : Finset ℕ)
    (t : PyStr) (ht : isTermToken t) :
    process_boolean_query [str ("("), t] I U =
      Except.error (expectedMsg tokRP none) := by
  obtain ⟨hA, hO, hN, hL, hR, htw⟩ := isTermToken_ne t ht
  have hlp : tokenizeWord (str ("(")) = tokLP := by decide
  have hlpN : (tokLP : PyStr) ≠ tokNOT := by decide
  simp [process_boolean_query, parse_query, tokenize, hlp, htw, parseRun,
    current_token, eat, hN, hL, hlpN, Except.map]

/-- Claim C3 amended witness: `( real` with an empty index. -/
theorem C3_unmatched_paren_raises_diagnostic_witness :
    isTermToken (str ("real")) ∧
      process_boolean_query [str ("("), str ("real")] [] ∅ =
        Except.error (expectedMsg tokRP none) :=
  ⟨by decide, C3_unmatched_paren_raises_diagnostic [] ∅ (str ("real")) (by decide)⟩

-- ---------------------------------------------------------------------
-- Claim C8 — order-independent index reduction
-- ---------------------------------------------------------------------

/-- Dictionary search by key gives the same answer on any permutation
of a binding list whose keys are distinct. -/
theorem find?_key_perm {α β : Type} [DecidableEq α] {l₁ l₂ : List (α × β)}
    (hp : l₁.Perm l₂) (k : α) :
    (l₁.map Prod.fst).Nodup →
      l₁.find? (fun pr => decide (pr.1 = k)) =
        l₂.find? (fun pr => decide (pr.1 = k)) := by
  induction hp with
  | nil => intro _; rfl
  | cons x hp ih =>
    intro hn
    simp only [List.map_cons, List.nodup_cons] at hn
    by_cases hx : x.1 = k
    · simp [List.find?, hx]
    · have hres := ih hn.2
      simp [List.find?, hx, hres]
  | swap x y l =>
    intro hn
    simp only [List.map_cons, List.nodup_cons, List.mem_cons] at hn
    have hxy : x.1 ≠ y.1 := fun he => hn.1 (Or.inl he.symm)
    by_cases h2 : x.1 = k
    · have h1 : y.1 ≠ k := fun he => hxy (h2.trans he.symm)
      simp [List.find?, h1, h2]
    · by_cases h1 : y.1 = k
      · simp [List.find?, h1, h2]
      · simp [List.find?, h1, h2]
  | trans hp1 hp2 ih1 ih2 =>
    intro hn
    have hn2 := ((hp1.map Prod.fst).nodup_iff).mp hn
    exact (ih1 hn).trans (ih2 hn2)

/-- A mapped flatten over elements that all map to the empty list is
empty. -/
theorem map_flatten_nil {α β : Type} (f : α → List β) :
    ∀ l : List α, (∀ x ∈ l, f x = []) → (l.map f).flatten = [] := by
  intro l
  induction l with
  | nil => intro _; rfl
  | cons a l2 ih =>
    intro h
    simp [h a (List.mem_cons_self a l2), ih (fun x hx => h x (List.mem_cons_of_mem a hx))]

/-- The inner loop of the biword reduction: after folding one document's
biword list, a key holds the old set with the document inserted exactly
when the key occurs in the list. -/
theorem biword_reduce_inner (d : ℕ) (bws : List Biword) (acc : Biword → Finset ℕ)
    (b : Biword) :
    (bws.foldl
        (fun idx biword => fun b2 => if b2 = biword then insert d (idx b2) else idx b2)
        acc) b =
      if b ∈ bws then insert d (acc b) else acc b := by
  induction bws generalizing acc with
  | nil => simp
  | cons hd tl ih =>
    rw [List.foldl_cons, ih]
    by_cases h1 : b ∈ tl <;> by_cases h2 : b = hd <;>
      simp [h1, h2, Finset.insert_idem]

/-- Membership characterization of the fully merged biword index. -/
theorem mem_biword_reduce (results : List (ℕ × List Biword)) (b : Biword) (x : ℕ) :
    x ∈ biword_reduce results b ↔ ∃ pr ∈ results, x = pr.1 ∧ b ∈ pr.2 := by
  suffices h : ∀ acc : Biword → Finset ℕ,
      (x ∈ (results.foldl
          (fun biword_index r =>
            r.2.foldl
              (fun idx biword => fun b2 =>
                if b2 = biword then insert r.1 (idx b2) else idx b2)
              biword_index)
          acc) b) ↔
        x ∈ acc b ∨ ∃ pr ∈ results, x = pr.1 ∧ b ∈ pr.2 by
    simpa [biword_reduce] using h (fun _ => ∅)
  intro acc
  induction results generalizing acc with
  | nil => simp
  | cons r rs ih =>
    rw [List.foldl_cons, ih]
    rw [biword_reduce_inner]
    by_cases hb : b ∈ r.2 <;> simp [hb, Finset.mem_insert] <;> tauto

/-- The inner loop of the positional reduction: after folding one
document's term-to-positions dictionary, the position list of a term
and document grows by the concatenated matching position lists exactly
for that document. -/
theorem positional_reduce_inner (d0 : ℕ) (tps : List (PyStr × List ℕ))
    (acc : PyStr → ℕ → List ℕ) (t : PyStr) (d : ℕ) :
    (tps.foldl
        (fun idx tp => fun t2 d2 =>
          if t2 = tp.1 ∧ d2 = d0 then idx t2 d2 ++ tp.2 else idx t2 d2)
        acc) t d =
      if d = d0 then
        acc t d ++ ((tps.filter (fun tp => decide (tp.1 = t))).map Prod.snd).flatten
      else acc t d := by
  induction tps generalizing acc with
  | nil => simp
  | cons tp tl ih =>
    rw [List.foldl_cons, ih]
    by_cases hd0 : d = d0
    · rw [if_pos hd0, if_pos hd0]
      by_cases ht : tp.1 = t
      · rw [if_pos (⟨ht.symm, hd0⟩ : t = tp.1 ∧ d = d0)]
        rw [List.filter_cons_of_pos (by simp [ht])]
        simp [List.append_assoc]
      · rw [if_neg (fun hc : t = tp.1 ∧ d = d0 => ht hc.1.symm)]
        rw [List.filter_cons_of_neg (by simp [ht])]
    · rw [if_neg hd0, if_neg hd0]
      exact if_neg (fun hc : t = tp.1 ∧ d = d0 => hd0 hc.2)

/-- The merged positional index is the concatenation, in results order,
of each document's contribution to the given term and document. -/
theorem positional_reduce_eq (results : List (ℕ × List (PyStr × List ℕ)))
    (t : PyStr) (d : ℕ) :
    positional_reduce results t d =
      (results.map
        (fun r =>
          if d = r.1 then
            ((r.2.filter (fun tp => decide (tp.1 = t))).map Prod.snd).flatten
          else [])).flatten := by
  suffices h : ∀ acc : PyStr → ℕ → List ℕ,
      (results.foldl
          (fun positional_index r =>
            r.2.foldl
              (fun idx tp => fun t2 d2 =>
                if t2 = tp.1 ∧ d2 = r.1 then idx t2 d2 ++ tp.2 else idx t2 d2)
              positional_index)
          acc) t d =
        acc t d ++
          (results.map
            (fun r =>
              if d = r.1 then
                ((r.2.filter (fun tp => decide (tp.1 = t))).map Prod.snd).flatten
              else [])).flatten by
    simpa [positional_reduce] using h (fun _ _ => [])
  intro acc
  induction results generalizing acc with
  | nil => simp
  | cons r rs ih =>
    rw [List.foldl_cons, ih, positional_reduce_inner]
    by_cases hd : d = r.1 <;> simp [hd, List.append_assoc]

/-- With distinct document IDs, the concatenated contributions collapse
to the single matching document's contribution. -/
theorem positional_contrib_single (t : PyStr) (d : ℕ)
    (q : List (ℕ × List (PyStr × List ℕ))) :
    (q.map Prod.fst).Nodup →
      (q.map
        (fun r =>
          if d = r.1 then
            ((r.2.filter (fun tp => decide (tp.1 = t))).map Prod.snd).flatten
          else [])).flatten =
        (match q.find? (fun r => decide (r.1 = d)) with
         | some r => ((r.2.filter (fun tp => decide (tp.1 = t))).map Prod.snd).flatten
         | none => []) := by
  induction q with
  | nil => intro _; rfl
  | cons r rs ih =>
    intro hn
    simp only [List.map_cons, List.nodup_cons] at hn
    by_cases hr : r.1 = d
    · have hrest : ∀ r2 ∈ rs, r2.1 ≠ d := fun r2 h2 he =>
        hn.1 ((hr.trans he.symm) ▸ List.mem_map_of_mem Prod.fst h2)
      rw [List.map_cons, if_pos hr.symm, List.flatten_cons]
      rw [map_flatten_nil _ rs (fun r2 h2 => if_neg (fun he => hrest r2 h2 he.symm))]
      rw [List.append_nil]
      simp [List.find?, hr]
    · rw [List.map_cons, if_neg (fun he => hr he.symm), List.flatten_cons,
        List.nil_append]
      rw [ih hn.2]
      simp [List.find?, hr]

/-- Claim C8: merging per-document results in any completion order
yields an identical final index — biword posting sets merge by set
union (no side condition), and per-document position lists keyed by
distinct document IDs merge to identical position lists. -/
theorem C8_reduction_order_independent :
    (∀ (r₁ r₂ : List (ℕ × List Biword)), r₁.Perm r₂ →
        ∀ b, biword_reduce r₁ b = biword_reduce r₂ b) ∧
      (∀ (q₁ q₂ : List (ℕ × List (PyStr × List ℕ))), q₁.Perm q₂ →
        (q₁.map Prod.fst).Nodup →
        ∀ t d, positional_reduce q₁ t d = positional_reduce q₂ t d) := by
  constructor
  · intro r₁ r₂ hp b
    apply Finset.ext
    intro x
    rw [mem_biword_reduce, mem_biword_reduce]
    constructor
    · rintro ⟨pr, hm, hx⟩
      exact ⟨pr, hp.mem_iff.mp hm, hx⟩
    · rintro ⟨pr, hm, hx⟩
      exact ⟨pr, hp.mem_iff.mpr hm, hx⟩
  · intro q₁ q₂ hp hn t d
    rw [positional_reduce_eq, positional_reduce_eq]
    rw [positional_contrib_single t d q₁ hn,
      positional_contrib_single t d q₂ (((hp.map Prod.fst).nodup_iff).mp hn)]
    rw [find?_key_perm hp d hn]

/-- Claim C8 witness: two orderings of two documents' results. -/
theorem C8_reduction_order_independent_witness :
    biword_reduce [(0, [(str ("a"), str ("b"))]), (1, [])]
        (str ("a"), str ("b")) =
      biword_reduce [(1, []), (0, [(str ("a"), str ("b"))])]
        (str ("a"), str ("b")) ∧
      positional_reduce [(0, [(str ("a"), [1])]), (1, [(str ("a"), [2])])]
          (str ("a")) 0 =
        positional_reduce [(1, [(str ("a"), [2])]), (0, [(str ("a"), [1])])]
          (str ("a")) 0 :=
  ⟨C8_reduction_order_independent.1 _ _ (by decide) _,
    C8_reduction_order_independent.2 _ _ (by decide) (by decide) _ _⟩

-- ---------------------------------------------------------------------
-- Claim C6 — exact positional phrase resolution
-- ---------------------------------------------------------------------

/-- Membership in the folded per-word document-set intersection. -/
theorem foldl_inter_mem (pidx : PosIndex) (S : Finset ℕ) (ws : List PyStr) (d : ℕ) :
    (d ∈ ws.foldl (fun acc w => acc ∩ docSetOf pidx w) S) ↔
      d ∈ S ∧ ∀ w ∈ ws, d ∈ docSetOf pidx w := by
  induction ws generalizing S with
  | nil => simp
  | cons w ws ih =>
    rw [List.foldl_cons, ih]
    simp [Finset.mem_inter]
    tauto

/-- A document with a recorded position for a word is in that word's
document set. -/
theorem posOf_mem_docSetOf (pidx : PosIndex) (w : PyStr) (d : ℕ) (p : ℕ)
    (hp : p ∈ posOf pidx w d) : d ∈ docSetOf pidx w := by
  unfold posOf pyDictGet at hp
  cases hf : (pposGet pidx w).find? (fun pr => decide (pr.1 = d)) with
  | none =>
    rw [hf] at hp
    simp at hp
  | some pr =>
    rw [hf] at hp
    have hmem := List.mem_of_find?_eq_some hf
    have hkey : pr.1 = d := by
      have := List.find?_some hf
      simpa using this
    unfold docSetOf
    simp only [List.mem_toFinset, List.mem_map]
    exact ⟨pr, hmem, hkey⟩

/-- Claim C6: the positional phrase result is a subset of every
individual word's document set (hence of their intersection), and a
document is in the result exactly when some starting offset `p` in the
first word's position list has the word at index `i` occurring at
position `p + i` for every `i`. -/
theorem C6_positional_phrase_characterization (pidx : PosIndex) (phrase : PyStr)
    (first_word : PyStr) (rest : List PyStr)
    (h : posPhraseWords phrase = first_word :: rest) :
    (∀ w ∈ first_word :: rest, ∀ d ∈ phrase_query phrase pidx, d ∈ docSetOf pidx w) ∧
      (∀ d, d ∈ phrase_query phrase pidx ↔
        ∃ p ∈ posOf pidx first_word d,
          ∀ i, ∀ hi : i < (first_word :: rest).length,
            (p + i) ∈ posOf pidx ((first_word :: rest).get ⟨i, hi⟩) d) := by
  have hmem : ∀ d, d ∈ phrase_query phrase pidx ↔
      ((d ∈ docSetOf pidx first_word ∧ ∀ w ∈ rest, d ∈ docSetOf pidx w) ∧
        ∃ p ∈ posOf pidx first_word d,
          ∀ j < rest.length, (p + (j + 1)) ∈ posOf pidx (rest.getD j []) d) := by
    intro d
    unfold phrase_query
    rw [h]
    rw [Finset.mem_filter, foldl_inter_mem]
    simp [List.any_eq_true, List.all_eq_true, List.mem_range]
  constructor
  · intro w hw d hd
    have hd2 := (hmem d).mp hd
    rcases List.mem_cons.mp hw with hfw | hrw
    · exact hfw ▸ hd2.1.1
    · exact hd2.1.2 w hrw
  · intro d
    rw [hmem d]
    constructor
    · rintro ⟨⟨h1, h2⟩, p, hp, hall⟩
      refine ⟨p, hp, ?_⟩
      intro i hi
      match i with
      | 0 => simpa using hp
      | j + 1 =>
        have hj : j < rest.length := by
          simpa using Nat.lt_of_succ_lt_succ hi
        have := hall j hj
        rwa [List.getD_eq_get rest [] hj] at this
    · rintro ⟨p, hp, hall⟩
      refine ⟨⟨posOf_mem_docSetOf pidx first_word d p hp, ?_⟩, p, hp, ?_⟩
      · intro w hw
        obtain ⟨⟨j, hj⟩, rfl⟩ := List.mem_iff_get.mp hw
        have := hall (j + 1) (by simpa using Nat.succ_lt_succ hj)
        exact posOf_mem_docSetOf pidx _ d _ this
      · intro j hj
        have := hall (j + 1) (by simpa using Nat.succ_lt_succ hj)
        rwa [List.getD_eq_get rest [] hj]

/-- Claim C6 witness: a two-word phrase over a small positional index
where document 0 contains the phrase contiguously. -/
theorem C6_positional_phrase_characterization_witness :
    posPhraseWords (str ("a b")) = str ("a") :: [str ("b")] ∧
      ((0 : ℕ) ∈ phrase_query (str ("a b"))
          ([(str ("a"), [(0, [0, 5])]), (str ("b"), [(0, [1])])] : PosIndex) ↔
        ∃ p ∈ posOf ([(str ("a"), [(0, [0, 5])]), (str ("b"), [(0, [1])])] : PosIndex)
            (str ("a")) 0,
          ∀ i, ∀ hi : i < (str ("a") :: [str ("b")]).length,
            (p + i) ∈ posOf
              ([(str ("a"), [(0, [0, 5])]), (str ("b"), [(0, [1])])] : PosIndex)
              ((str ("a") :: [str ("b")]).get ⟨i, hi⟩) 0) :=
  ⟨by decide,
    (C6_positional_phrase_characterization
        ([(str ("a"), [(0, [0, 5])]), (str ("b"), [(0, [1])])] : PosIndex)
        (str ("a b")) (str ("a")) [str ("b")] (by decide)).2 0⟩

-- ---------------------------------------------------------------------
-- Claim C7 — serialization round trip
-- ---------------------------------------------------------------------

/-- Decimal digit characters decode back to their value and are plain
digits. -/
theorem digitChar_facts (d : ℕ) (hd : d < 10) :
    digitVal (digitChar d) = d ∧ isDigitChar (digitChar d) = true := by
  interval_cases d <;> exact ⟨by decide, by decide⟩

/-- A digit character is not whitespace and not a comma. -/
theorem isDigitChar_not_special (c : Char) (h : isDigitChar c = true) :
    isWs c = false ∧ c ≠ ',' := by
  have h2 : 48 ≤ c.toNat ∧ c.toNat ≤ 57 := by simpa [isDigitChar] using h
  constructor
  · simp only [isWs, decide_eq_false_iff_not]
    rintro (rfl | rfl | rfl | rfl) <;> exact absurd h2.1 (by decide)
  · rintro rfl
    exact absurd h2.1 (by decide)

/-- Soundness of the fuel-structured digit expansion. -/
theorem digitsAux_facts : ∀ (f n : ℕ), n ≤ f →
    ofDigits10 (digitsAux f n) = n ∧ (∀ d ∈ digitsAux f n, d < 10) ∧
      (n ≠ 0 → digitsAux f n ≠ []) := by
  intro f
  induction f with
  | zero =>
    intro n hn
    have h0 : n = 0 := Nat.le_zero.mp hn
    subst h0
    exact ⟨rfl, by simp [digitsAux], fun h => absurd rfl h⟩
  | succ f ih =>
    intro n hn
    match n with
    | 0 => exact ⟨rfl, by simp [digitsAux], fun h => absurd rfl h⟩
    | m + 1 =>
      have hdiv : (m + 1) / 10 ≤ f := by
        have h1 : (m + 1) / 10 < m + 1 := Nat.div_lt_self (Nat.succ_pos m) (by omega)
        omega
      obtain ⟨ih1, ih2, _⟩ := ih ((m + 1) / 10) hdiv
      refine ⟨?_, ?_, fun _ => by simp [digitsAux]⟩
      · show (m + 1) % 10 + 10 * ofDigits10 (digitsAux f ((m + 1) / 10)) = m + 1
        rw [ih1]
        exact Nat.mod_add_div (m + 1) 10
      · intro d hd
        rcases List.mem_cons.mp hd with h | h
        · exact h ▸ Nat.mod_lt _ (by omega)
        · exact ih2 d h

/-- The decimal rendering of a natural number parses back to the same
number, is nonempty, and consists of digit characters only. -/
theorem natToChars_facts (n : ℕ) :
    charsToNat (natToChars n) = some n ∧ natToChars n ≠ [] ∧
      (∀ c ∈ natToChars n, isDigitChar c = true) := by
  by_cases h0 : n = 0
  · subst h0
    exact ⟨by decide, by decide, by decide⟩
  · obtain ⟨h1, h2, h3⟩ := digitsAux_facts n n le_rfl
    have hne := h3 h0
    have hnne : natToChars n ≠ [] := by
      unfold natToChars
      rw [if_neg h0]
      simp [hne]
    have hdig : ∀ c ∈ natToChars n, isDigitChar c = true := by
      intro c hc
      unfold natToChars at hc
      rw [if_neg h0] at hc
      obtain ⟨d, hd, rfl⟩ := List.mem_map.mp hc
      exact (digitChar_facts d (h2 d (List.mem_reverse.mp hd))).2
    refine ⟨?_, hnne, hdig⟩
    unfold charsToNat
    have hisd : pyisdigit (natToChars n) = true := by
      unfold pyisdigit
      simp [hnne, List.all_eq_true]
      exact hdig
    rw [if_pos hisd]
    congr 1
    unfold natToChars
    rw [if_neg h0]
    rw [List.map_map]
    have hfix : ((digitsAux n n).reverse.map (digitVal ∘ digitChar)) =
        (digitsAux n n).reverse := by
      apply (list_map_eq_self _ _).mpr
      intro d hd
      exact (digitChar_facts d (h2 d (List.mem_reverse.mp hd))).1
    rw [hfix, List.reverse_reverse]
    have hof : ∀ l : List ℕ, ofDigits10 l = l.foldr (fun d acc => d + 10 * acc) 0 :=
      fun l => rfl
    exact h1

/-- Splitting passes over a whitespace-free chunk, accumulating it. -/
theorem pysplitAux_nonws (w : PyStr) (hw : ∀ c ∈ w, isWs c = false) :
    ∀ (cur rest : PyStr), pysplitAux cur (w ++ rest) = pysplitAux (cur ++ w) rest := by
  induction w with
  | nil => intro cur rest; simp
  | cons c cs ih =>
    intro cur rest
    have hc : isWs c = false := hw c (List.mem_cons_self c cs)
    show pysplitAux cur (c :: (cs ++ rest)) = _
    rw [show pysplitAux cur (c :: (cs ++ rest)) =
        pysplitAux (cur ++ [c]) (cs ++ rest) from by simp [pysplitAux, hc]]
    rw [ih (fun x hx => hw x (List.mem_cons_of_mem c hx)) (cur ++ [c]) rest]
    simp

/-- Whitespace-splitting a line of three nonempty whitespace-free
fields separated by single spaces yields exactly those fields. -/
theorem pysplit_three (a b c : PyStr) (ha : a ≠ []) (hwa : ∀ x ∈ a, isWs x = false)
    (hb : b ≠ []) (hwb : ∀ x ∈ b, isWs x = false)
    (hc : c ≠ []) (hwc : ∀ x ∈ c, isWs x = false) :
    pysplit (a ++ ' ' :: (b ++ ' ' :: c)) = [a, b, c] := by
  have hcc : pysplitAux ([] : PyStr) c = [c] := by
    have h := pysplitAux_nonws c hwc [] []
    rw [List.append_nil] at h
    rw [h]
    simp [pysplitAux, hc]
  have h1 : pysplitAux ([] : PyStr) (a ++ ' ' :: (b ++ ' ' :: c)) =
      pysplitAux a (' ' :: (b ++ ' ' :: c)) := by
    simpa using pysplitAux_nonws a hwa [] _
  have h2 : pysplitAux a (' ' :: (b ++ ' ' :: c)) =
      a :: pysplitAux [] (b ++ ' ' :: c) := by
    simp [pysplitAux, ha, show isWs ' ' = true from by decide]
  have h3 : pysplitAux ([] : PyStr) (b ++ ' ' :: c) = pysplitAux b (' ' :: c) := by
    simpa using pysplitAux_nonws b hwb [] _
  have h4 : pysplitAux b (' ' :: c) = b :: pysplitAux [] c := by
    simp [pysplitAux, hb, show isWs ' ' = true from by decide]
  unfold pysplit
  rw [h1, h2, h3, h4, hcc]

/-- Every character of a joined list is the separator or comes from one
of the parts. -/
theorem pyjoin_chars (sep : Char) :
    ∀ (ps : List PyStr) (c : Char), c ∈ pyjoin sep ps → c = sep ∨ ∃ p ∈ ps, c ∈ p := by
  intro ps
  induction ps with
  | nil => intro c hc; simp [pyjoin] at hc
  | cons p qs ih =>
    match qs with
    | [] =>
      intro c hc
      right
      exact ⟨p, by simp, by simpa [pyjoin] using hc⟩
    | q :: rest =>
      intro c hc
      rw [show pyjoin sep (p :: q :: rest) = p ++ sep :: pyjoin sep (q :: rest) from rfl]
        at hc
      rcases List.mem_append.mp hc with h | h
      · exact Or.inr ⟨p, List.mem_cons_self p _, h⟩
      · rcases List.mem_cons.mp h with h' | h'
        · exact Or.inl h'
        · rcases ih c h' with h'' | ⟨p2, hp2, hcp⟩
          · exact Or.inl h''
          · exact Or.inr ⟨p2, List.mem_cons_of_mem p hp2, hcp⟩

/-- Joining a nonempty list of nonempty parts is nonempty. -/
theorem pyjoin_ne_nil (sep : Char) :
    ∀ ps : List PyStr, ps ≠ [] → (∀ p ∈ ps, p ≠ []) → pyjoin sep ps ≠ [] := by
  intro ps
  match ps with
  | [] => intro h; exact absurd rfl h
  | [p] => intro _ hp; simpa [pyjoin] using hp p (by simp)
  | p :: q :: rest =>
    intro _ _
    show p ++ sep :: pyjoin sep (q :: rest) ≠ []
    simp

/-- Separator-splitting passes over a separator-free chunk. -/
theorem pysplitOnAux_nonsep (sep : Char) (w : PyStr) (hw : sep ∉ w) :
    ∀ (cur rest : PyStr),
      pysplitOnAux sep cur (w ++ rest) = pysplitOnAux sep (cur ++ w) rest := by
  induction w with
  | nil => intro cur rest; simp
  | cons c cs ih =>
    intro cur rest
    have hc : ¬c = sep := fun he => hw (he ▸ List.mem_cons_self c cs)
    show pysplitOnAux sep cur (c :: (cs ++ rest)) = _
    rw [show pysplitOnAux sep cur (c :: (cs ++ rest)) =
        pysplitOnAux sep (cur ++ [c]) (cs ++ rest) from by simp [pysplitOnAux, hc]]
    rw [ih (fun hm => hw (List.mem_cons_of_mem c hm)) (cur ++ [c]) rest]
    simp

/-- Splitting on the separator inverts joining when no part contains
the separator. -/
theorem pysplitOn_pyjoin (sep : Char) :
    ∀ ps : List PyStr, ps ≠ [] → (∀ p ∈ ps, sep ∉ p) →
      pysplitOn sep (pyjoin sep ps) = ps := by
  intro ps
  induction ps with
  | nil => intro h; exact absurd rfl h
  | cons p qs ih =>
    intro _ hsep
    match qs with
    | [] =>
      unfold pysplitOn
      calc pysplitOnAux sep [] (pyjoin sep [p])
          = pysplitOnAux sep [] (p ++ []) := by rw [List.append_nil]; rfl
        _ = pysplitOnAux sep ([] ++ p) [] := pysplitOnAux_nonsep sep p (hsep p (by simp)) [] []
        _ = [p] := by simp [pysplitOnAux]
    | q :: rest =>
      unfold pysplitOn
      rw [show pyjoin sep (p :: q :: rest) = p ++ sep :: pyjoin sep (q :: rest) from rfl]
      rw [pysplitOnAux_nonsep sep p (hsep p (by simp)) [] (sep :: pyjoin sep (q :: rest))]
      rw [show pysplitOnAux sep ([] ++ p) (sep :: pyjoin sep (q :: rest)) =
          p :: pysplitOnAux sep [] (pyjoin sep (q :: rest)) from by simp [pysplitOnAux]]
      rw [show pysplitOnAux sep [] (pyjoin sep (q :: rest)) =
          pysplitOn sep (pyjoin sep (q :: rest)) from rfl]
      rw [ih (by simp) (fun x hx => hsep x (List.mem_cons_of_mem p hx))]

/-- Parsing the rendered doc IDs recovers them. -/
theorem filterMap_charsToNat_map (l : List ℕ) :
    (l.map natToChars).filterMap charsToNat = l := by
  induction l with
  | nil => rfl
  | cons x xs ih =>
    rw [List.map_cons, List.filterMap_cons, (natToChars_facts x).1, ih]

/-- Splitting a saved index line recovers its three fields. -/
theorem pysplit_saveLine (pr : PyStr × Finset ℕ) (ht : pr.1 ≠ [])
    (hw : ∀ c ∈ pr.1, isWs c = false) (hs : pr.2.Nonempty) :
    pysplit (saveLine pr) =
      [pr.1, natToChars pr.2.card,
        pyjoin ',' ((sortedPostings pr.2).map natToChars)] := by
  have hshape : saveLine pr =
      pr.1 ++ ' ' :: (natToChars pr.2.card ++ ' ' ::
        pyjoin ',' ((sortedPostings pr.2).map natToChars)) := by
    unfold saveLine
    simp
  have hbne := (natToChars_facts pr.2.card).2.1
  have hbw : ∀ x ∈ natToChars pr.2.card, isWs x = false :=
    fun x hx => (isDigitChar_not_special x ((natToChars_facts pr.2.card).2.2 x hx)).1
  have hsortne : sortedPostings pr.2 ≠ [] := by
    have hlen : (sortedPostings pr.2).length = pr.2.card := Finset.length_sort _
    intro he
    rw [he] at hlen
    have hpos := Finset.card_pos.mpr hs
    simp at hlen
    omega
  have hmapne : (sortedPostings pr.2).map natToChars ≠ [] := by simp [hsortne]
  have hpne : ∀ p ∈ (sortedPostings pr.2).map natToChars, p ≠ [] := by
    intro p hp
    obtain ⟨x, _, rfl⟩ := List.mem_map.mp hp
    exact (natToChars_facts x).2.1
  have hcne : pyjoin ',' ((sortedPostings pr.2).map natToChars) ≠ [] :=
    pyjoin_ne_nil ',' _ hmapne hpne
  have hcw : ∀ x ∈ pyjoin ',' ((sortedPostings pr.2).map natToChars),
      isWs x = false := by
    intro x hx
    rcases pyjoin_chars ',' _ x hx with rfl | ⟨p, hp, hxp⟩
    · decide
    · obtain ⟨y, _, rfl⟩ := List.mem_map.mp hp
      exact (isDigitChar_not_special x ((natToChars_facts y).2.2 x hxp)).1
  rw [hshape]
  exact pysplit_three _ _ _ ht hw hbne hbw hcne hcw

/-- Loading a saved line inserts exactly the original binding. -/
theorem loadIndexLine_saveLine (acc : InvIndex) (pr : PyStr × Finset ℕ)
    (ht : pr.1 ≠ []) (hw : ∀ c ∈ pr.1, isWs c = false) (hs : pr.2.Nonempty) :
    loadIndexLine acc (saveLine pr) = pyDictInsert acc pr.1 pr.2 := by
  have hsortne : sortedPostings pr.2 ≠ [] := by
    have hlen : (sortedPostings pr.2).length = pr.2.card := Finset.length_sort _
    intro he
    rw [he] at hlen
    have hpos := Finset.card_pos.mpr hs
    simp at hlen
    omega
  have hmapne : (sortedPostings pr.2).map natToChars ≠ [] := by simp [hsortne]
  have hnocomma : ∀ p ∈ (sortedPostings pr.2).map natToChars, ',' ∉ p := by
    intro p hp hmem
    obtain ⟨y, _, rfl⟩ := List.mem_map.mp hp
    exact (isDigitChar_not_special ',' ((natToChars_facts y).2.2 ',' hmem)).2 rfl
  have hsplit : pysplitOn ',' (pyjoin ',' ((sortedPostings pr.2).map natToChars)) =
      (sortedPostings pr.2).map natToChars :=
    pysplitOn_pyjoin ',' _ hmapne hnocomma
  unfold loadIndexLine
  rw [pysplit_saveLine pr ht hw hs]
  simp only [List.length_cons, List.length_nil, List.getD]
  rw [if_neg (by omega)]
  simp only [List.getD, List.get?, Option.getD_some]
  rw [hsplit, filterMap_charsToNat_map]
  unfold sortedPostings
  rw [Finset.sort_toFinset]

/-- Assigning a fresh key appends the binding. -/
theorem pyDictInsert_fresh {α β : Type} [DecidableEq α] (l : List (α × β)) (k : α)
    (v : β) (h : ∀ pr ∈ l, pr.1 ≠ k) : pyDictInsert l k v = l ++ [(k, v)] := by
  unfold pyDictInsert
  rw [if_neg]
  intro hc
  simp only [List.any_eq_true, decide_eq_true_eq] at hc
  obtain ⟨pr, hm, he⟩ := hc
  exact h pr hm he

/-- Loading the rendered lines of a well-formed binding list with fresh
distinct keys appends exactly those bindings. -/
theorem load_saveLines :
    ∀ (L : List (PyStr × Finset ℕ)) (acc : InvIndex),
      (∀ pr ∈ L, pr.1 ≠ [] ∧ (∀ c ∈ pr.1, isWs c = false) ∧ pr.2.Nonempty) →
      (L.map Prod.fst).Nodup →
      (∀ pr ∈ L, ∀ qr ∈ acc, qr.1 ≠ pr.1) →
      (L.map saveLine).foldl loadIndexLine acc = acc ++ L := by
  intro L
  induction L with
  | nil => intro acc _ _ _; simp
  | cons pr rs ih =>
    intro acc hinv hnodup hdisj
    obtain ⟨h1, h2, h3⟩ := hinv pr (List.mem_cons_self pr rs)
    simp only [List.map_cons, List.nodup_cons] at hnodup
    rw [List.map_cons, List.foldl_cons]
    rw [loadIndexLine_saveLine acc pr h1 h2 h3]
    rw [pyDictInsert_fresh acc pr.1 pr.2
      (fun qr hq => hdisj pr (List.mem_cons_self pr rs) qr hq)]
    rw [ih (acc ++ [(pr.1, pr.2)])
      (fun q hq => hinv q (List.mem_cons_of_mem pr hq)) hnodup.2 ?_]
    · simp
    · intro q hq qr hqr he
      rcases List.mem_append.mp hqr with hin | hin
      · exact hdisj q (List.mem_cons_of_mem pr hq) qr hin he
      · have hqr1 : qr = (pr.1, pr.2) := by simpa using hin
        have hq1 : pr.1 = q.1 := by rw [← he, hqr1]
        exact hnodup.1 (by rw [hq1]; exact List.mem_map_of_mem Prod.fst hq)

/-- Totality of the lexicographic string comparison. -/
theorem pystrLe_total : ∀ a b : PyStr, pystrLe a b = true ∨ pystrLe b a = true := by
  intro a
  induction a with
  | nil => intro b; left; rfl
  | cons x xs ih =>
    intro b
    match b with
    | [] => right; rfl
    | y :: ys =>
      by_cases hxy : x < y
      · left; simp [pystrLe, hxy]
      · by_cases heq : x = y
        · subst heq
          rcases ih ys with h | h
          · left; simp [pystrLe, h]
          · right; simp [pystrLe, h]
        · have hyx : y < x := lt_of_le_of_ne (not_lt.mp hxy) (Ne.symm heq)
          right
          simp [pystrLe, hyx]

/-- One unfolding step of the lexicographic comparison. -/
theorem pystrLe_cons (u v : Char) (us vs : PyStr) :
    (pystrLe (u :: us) (v :: vs) = true) ↔
      (u < v ∨ (u = v ∧ pystrLe us vs = true)) := by
  by_cases h1 : u < v
  · simp [pystrLe, h1]
  · by_cases h2 : u = v <;> simp [pystrLe, h1, h2]

/-- Transitivity of the lexicographic string comparison. -/
theorem pystrLe_trans :
    ∀ a b c : PyStr, pystrLe a b = true → pystrLe b c = true →
      pystrLe a c = true := by
  intro a
  induction a with
  | nil => intro b c _ _; rfl
  | cons x xs ih =>
    intro b c hab hbc
    match b, c with
    | [], _ => simp [pystrLe] at hab
    | _ :: _, [] => simp [pystrLe] at hbc
    | y :: ys, z :: zs =>
      rw [pystrLe_cons] at hab hbc ⊢
      rcases hab with hab1 | ⟨habe, habr⟩ <;> rcases hbc with hbc1 | ⟨hbce, hbcr⟩
      · exact Or.inl (lt_trans hab1 hbc1)
      · exact Or.inl (hbce ▸ hab1)
      · exact Or.inl (habe ▸ hbc1)
      · exact Or.inr ⟨habe.trans hbce, ih ys zs habr hbcr⟩

/-- Claim C7: for a term index with distinct nonempty whitespace-free
terms and nonempty posting sets, loading the saved text serialization
returns the identical index: the loaded binding list is the original
sorted by term, every dictionary lookup agrees with the original, the
saved lines are sorted by term, and each line's doc IDs are rendered
ascending. -/
theorem C7_save_load_round_trip (idx : InvIndex)
    (hkeys : (idx.map Prod.fst).Nodup)
    (hterm : ∀ pr ∈ idx, pr.1 ≠ [] ∧ ∀ c ∈ pr.1, isWs c = false)
    (hvals : ∀ pr ∈ idx, pr.2.Nonempty) :
    load_inverted_index (save_inverted_index idx) =
        List.insertionSort (fun a b => pystrLe a.1 b.1 = true) idx ∧
      (∀ t, pyDictGet (load_inverted_index (save_inverted_index idx)) t ∅ =
        pyDictGet idx t ∅) ∧
      List.Sorted (fun a b => pystrLe a.1 b.1 = true)
        (List.insertionSort (fun a b => pystrLe a.1 b.1 = true) idx) ∧
      (∀ pr ∈ idx, List.Sorted (· ≤ ·) (sortedPostings pr.2)) := by
  haveI hTot : IsTotal (PyStr × Finset ℕ) (fun a b => pystrLe a.1 b.1 = true) :=
    ⟨fun a b => pystrLe_total a.1 b.1⟩
  haveI hTrans : IsTrans (PyStr × Finset ℕ) (fun a b => pystrLe a.1 b.1 = true) :=
    ⟨fun a b c => pystrLe_trans a.1 b.1 c.1⟩
  have hperm : (List.insertionSort (fun a b => pystrLe a.1 b.1 = true) idx).Perm idx :=
    List.perm_insertionSort _ idx
  have hnodupL :
      ((List.insertionSort (fun a b => pystrLe a.1 b.1 = true) idx).map
        Prod.fst).Nodup :=
    ((hperm.map Prod.fst).nodup_iff).mpr hkeys
  have hload : load_inverted_index (save_inverted_index idx) =
      List.insertionSort (fun a b => pystrLe a.1 b.1 = true) idx := by
    unfold load_inverted_index save_inverted_index
    rw [load_saveLines _ []
      (fun pr hm =>
        ⟨(hterm pr (hperm.subset hm)).1, (hterm pr (hperm.subset hm)).2,
          hvals pr (hperm.subset hm)⟩)
      hnodupL
      (fun pr _ qr hq => absurd hq (List.not_mem_nil qr))]
    simp
  refine ⟨hload, ?_, List.sorted_insertionSort _ idx,
    fun pr _ => Finset.sort_sorted _ _⟩
  intro t
  rw [hload]
  unfold pyDictGet
  rw [find?_key_perm hperm t hnodupL]

/-- Claim C7 witness: a concrete two-term index round-trips through the
text serialization. -/
theorem C7_save_load_round_trip_witness :
    (((([(str ("b"), {1}), (str ("a"), {0, 2})] : InvIndex)).map Prod.fst).Nodup ∧
        (∀ pr ∈ ([(str ("b"), {1}), (str ("a"), {0, 2})] : InvIndex),
          pr.1 ≠ [] ∧ ∀ c ∈ pr.1, isWs c = false) ∧
        (∀ pr ∈ ([(str ("b"), {1}), (str ("a"), {0, 2})] : InvIndex),
          pr.2.Nonempty)) ∧
      pyDictGet
          (load_inverted_index
            (save_inverted_index ([(str ("b"), {1}), (str ("a"), {0, 2})] : InvIndex)))
          (str ("a")) ∅ =
        pyDictGet ([(str ("b"), {1}), (str ("a"), {0, 2})] : InvIndex) (str ("a")) ∅ :=
  ⟨⟨by decide, by decide, by decide⟩,
    (C7_save_load_round_trip ([(str ("b"), {1}), (str ("a"), {0, 2})] : InvIndex)
        (by decide) (by decide) (by decide)).2.1 (str ("a"))⟩
